import Mathlib

/-!
Verification of the MCP tool-discovery aggregator and toolbox-selection/export
pipeline of the `visual` repository.

The TypeScript sources are shallowly embedded:
* strings are Lean `String` (a wrapper around `List Char`); string helpers are
  defined through `String.data` so that every definition is executable and
  kernel-reducible;
* JavaScript objects used as string-keyed records (`Record<string, T>`,
  `Map<string, T>`) are embedded as insertion-ordered association lists
  `List (String × T)`; property assignment `o[k] = v` is `jsSet` (replace the
  entry in place when the key is present, append otherwise — JS objects and
  Maps never hold a duplicate key, so replace-first is exact);
* code that throws is embedded in `Except String`, the error message being the
  thrown `Error`'s message;
* network effects (fetch responses, SDK call outcomes) are inputs of the
  embedded functions: a strategy outcome is an `Except String` value, an HTTP
  response is a status plus an optional parsed JSON body (`none` standing for
  a body that fails JSON parsing).
-/

/-- JS object / `Map` property assignment `m[k] = v`: replace the entry with
key `k` in place if present, otherwise append the new entry at the end. -/
def jsSet {α : Type} : List (String × α) → String → α → List (String × α)
  | [], k, v => [(k, v)]
  | p :: rest, k, v => if p.1 = k then (k, v) :: rest else p :: jsSet rest k v

/-- JS object / `Map` lookup `m[k]` / `m.get(k)`. -/
def lookupKey {α : Type} : List (String × α) → String → Option α
  | [], _ => none
  | p :: rest, k => if p.1 = k then some p.2 else lookupKey rest k

/-- JS `Map.delete(k)`: remove the entry with key `k`. -/
def mapDelete {α : Type} (m : List (String × α)) (k : String) : List (String × α) :=
  m.filter (fun p => p.1 ≠ k)

/-- `s.endsWith(c)` for a single-character suffix. -/
def endsWithChar (s : String) (c : Char) : Bool :=
  match s.data.getLast? with
  | some d => d = c
  | none => false

/-- `s.slice(0, -1)`: drop the last character. -/
def dropLast1 (s : String) : String := ⟨s.data.dropLast⟩

/-- `s.startsWith(pat)`. -/
def leadsWith (pat s : String) : Bool := s.data.take pat.data.length == pat.data

/-- `s.slice(n)`: drop the first `n` characters. -/
def dropChars (n : Nat) (s : String) : String := ⟨s.data.drop n⟩

/-- `s.trim()` (ASCII whitespace model of the JS trim). -/
def strTrim (s : String) : String :=
  ⟨((s.data.dropWhile Char.isWhitespace).reverse.dropWhile Char.isWhitespace).reverse⟩

/-- A JSON value, as produced by `res.json()` / `JSON.parse`. -/
inductive Json where
  | null
  | bool (b : Bool)
  | num (n : Int)
  | str (s : String)
  | arr (items : List Json)
  | obj (fields : List (String × Json))

namespace McpExport

/-- `McpTool` from `src/components/mcp-service/types.ts` (also the adapter's
`McpTool` in `src/components/agent-topology/adapters/types.ts`): the tool
record produced by discovery. -/
structure McpTool where
  name : String
  display_name : String
  mcp_server_name : String
  mcp_server_url : String
  description : Option String := none
  input_schema : Option Json := none

/-- `normalizeUrl` from `src/components/agent-topology/mcp-service/export.ts`:
empty stays empty, otherwise exactly one trailing `/` is stripped. -/
def normalizeUrl (url : String) : String :=
  if url = "" then ""
  else if endsWithChar url '/' then dropLast1 url
  else url

/-- `createToolKey` from `export.ts`: throws when `mcp_server_url` or `name`
is empty (checked on the raw fields, in that order), otherwise returns
`normalizeUrl(mcp_server_url) + "::" + name`. -/
def createToolKey (tool : McpTool) : Except String String :=
  if tool.mcp_server_url = "" then .error "tool.mcp_server_url is required"
  else if tool.name = "" then .error "tool.name is required"
  else .ok (normalizeUrl tool.mcp_server_url ++ "::" ++ tool.name)

/-- The per-tool record placed in `McpConfig.tools` by `createConfig`. -/
structure ExportedTool where
  name : String
  display_name : String
  mcp_server_name : String
  mcp_server_url : String
  deriving DecidableEq

/-- The per-tool normalization step of `createConfig` (`tools.map(...)`):
`display_name` falls back to `name`, the URL is normalized. -/
def normalizeTool (t : McpTool) : ExportedTool :=
  { name := t.name
    display_name := if t.display_name = "" then t.name else t.display_name
    mcp_server_name := t.mcp_server_name
    mcp_server_url := normalizeUrl t.mcp_server_url }

/-- The three-part interrupt key `url::name::server_name` built over the
already-normalized tool. -/
def interruptKey (t : ExportedTool) : String :=
  t.mcp_server_url ++ "::" ++ t.name ++ "::" ++ t.mcp_server_name

/-- `McpConfig` from `src/components/mcp-service/types.ts`. -/
structure McpConfig where
  tools : List ExportedTool
  interrupt_config : List (String × Bool)

/-- The `for (const tool of normalizedTools)` loop of `createConfig`: checks
`name` and `mcp_server_url` of each normalized tool and sets its interrupt
key to `true`, aborting with the first error. -/
def buildInterrupt : List ExportedTool → List (String × Bool) → Except String (List (String × Bool))
  | [], acc => .ok acc
  | t :: rest, acc =>
    if t.name = "" then .error "tool.name is required"
    else if t.mcp_server_url = "" then .error "tool.mcp_server_url is required"
    else buildInterrupt rest (jsSet acc (interruptKey t) true)

/-- `createConfig` from `export.ts`. -/
def createConfig (tools : List McpTool) : Except String McpConfig :=
  let normalizedTools := tools.map normalizeTool
  match buildInterrupt normalizedTools [] with
  | .error e => .error e
  | .ok ic => .ok { tools := normalizedTools, interrupt_config := ic }

end McpExport

namespace Toolbox

/-- The toolbox item appended by `addTools` in
`src/components/agent-topology/topology.tsx` (`ToolboxHeader`). -/
structure ToolboxItem where
  id : String
  name : String
  source : String
  status : String
  deriving DecidableEq

/-- The object pushed by `addTools` for one accepted tool. -/
def mkItem (t : McpExport.McpTool) (key : String) : ToolboxItem :=
  { id := key
    name := if t.display_name = "" then t.name else t.display_name
    source := t.mcp_server_name
    status := "active" }

/-- The `for (const tool of tools)` loop of `addTools`: compute the tool key
(which may throw), skip the tool when the key is already seen, otherwise
append the new item and record the key. -/
def addToolsGo : List McpExport.McpTool → List ToolboxItem → List String → Except String (List ToolboxItem)
  | [], acc, _ => .ok acc
  | t :: rest, acc, seen =>
    match McpExport.createToolKey t with
    | .error e => .error e
    | .ok key =>
      if key ∈ seen then addToolsGo rest acc seen
      else addToolsGo rest (acc ++ [mkItem t key]) (seen ++ [key])

/-- `addTools` from `topology.tsx`: `existingIds` starts as the ids of the
current toolbox items, `nextTools` as a copy of the current items. -/
def addTools (current : List ToolboxItem) (tools : List McpExport.McpTool) :
    Except String (List ToolboxItem) :=
  addToolsGo tools current (current.map (·.id))

end Toolbox

namespace Adapter

/-- `ToolItem` from `src/components/agent-topology/types.ts` (the fields the
adapter code reads and spreads). -/
structure ToolItem where
  id : String
  name : String
  icon : Option String := none
  status : Option String := none
  source : Option String := none
  mcp_server_name : Option String := none
  mcp_server_url : Option String := none

/-- `McpToolItem` from `src/components/agent-topology/adapters/types.ts`:
`ToolItem` extended with MCP metadata. -/
structure McpToolItem where
  id : String
  name : String
  icon : Option String := none
  status : Option String := none
  source : Option String := none
  mcp_server_name : Option String := none
  mcp_server_url : Option String := none
  description : Option String := none
  input_schema : Option Json := none

/-- `createToolId` from `src/unnamed/part_005`: raw (un-normalized) URL plus
name. -/
def createToolId (t : McpExport.McpTool) : String :=
  t.mcp_server_url ++ "::" ++ t.name

/-- `s.includes(sub)` on character lists. -/
def hasInfix (needle : List Char) : List Char → Bool
  | [] => needle.isEmpty
  | c :: rest => ((c :: rest).take needle.length == needle) || hasInfix needle rest

/-- `s.includes(sub)`. -/
def strIncludes (s sub : String) : Bool := hasInfix sub.data s.data

/-- `s.toLowerCase()` (ASCII model). -/
def strLower (s : String) : String := ⟨s.data.map Char.toLower⟩

/-- `getToolIcon` from `part_005`: icon chosen by substring matches on the
lower-cased tool name. -/
def getToolIcon (tool : McpExport.McpTool) : String :=
  let name := strLower tool.name
  if strIncludes name "search" || strIncludes name "find" then "🔍"
  else if strIncludes name "read" || strIncludes name "get" then "📖"
  else if strIncludes name "write" || strIncludes name "create" || strIncludes name "add" then "✏️"
  else if strIncludes name "delete" || strIncludes name "remove" then "🗑️"
  else if strIncludes name "file" || strIncludes name "document" then "📄"
  else if strIncludes name "database" || strIncludes name "sql" then "🗃️"
  else if strIncludes name "api" || strIncludes name "http" || strIncludes name "request" then "🌐"
  else if strIncludes name "email" || strIncludes name "mail" then "📧"
  else if strIncludes name "image" || strIncludes name "photo" then "🖼️"
  else if strIncludes name "code" || strIncludes name "script" then "💻"
  else if strIncludes name "browser" || strIncludes name "web" then "🌍"
  else if strIncludes name "navigate" || strIncludes name "click" then "🖱️"
  else if strIncludes name "screenshot" then "📸"
  else "🔧"

/-- `adaptMcpTool` from `part_005`. -/
def adaptMcpTool (tool : McpExport.McpTool) : McpToolItem :=
  { id := createToolId tool
    name := if tool.display_name = "" then tool.name else tool.display_name
    icon := some (getToolIcon tool)
    status := some "active"
    source := some tool.mcp_server_name
    mcp_server_name := some tool.mcp_server_name
    mcp_server_url := some tool.mcp_server_url
    description := tool.description
    input_schema := tool.input_schema }

/-- `McpToolAdapterOptions` (the one field the adapter code reads). -/
structure McpToolAdapterOptions where
  maxToolsPerNode : Option Nat := none

/-- `adaptMcpToolsToTopology` from `part_005`: adapt every tool, then truncate
when `maxToolsPerNode` is a truthy number (`0` is falsy in JS, so no
truncation) smaller than the length. -/
def adaptMcpToolsToTopology (tools : List McpExport.McpTool)
    (options : Option McpToolAdapterOptions) : List McpToolItem :=
  let adapted := tools.map adaptMcpTool
  match (options.getD {}).maxToolsPerNode with
  | some m => if m ≠ 0 ∧ adapted.length > m then adapted.take m else adapted
  | none => adapted

/-- The `existingTools.map(...)` conversion inside `mergeWithMcpTools`:
spread the `ToolItem` and explicitly clear the MCP server fields. -/
def toMcpItem (t : ToolItem) : McpToolItem :=
  { id := t.id
    name := t.name
    icon := t.icon
    status := t.status
    source := t.source
    mcp_server_name := none
    mcp_server_url := none
    description := none
    input_schema := none }

/-- `mergeWithMcpTools` from `part_005`: insert the converted existing tools
into a `Map` keyed by id, then the adapted MCP tools (overwriting on equal
ids), and return the map's values in insertion order. -/
def mergeWithMcpTools (existingTools : List ToolItem) (mcpTools : List McpExport.McpTool)
    (options : Option McpToolAdapterOptions) : List McpToolItem :=
  let adaptedMcpTools := adaptMcpToolsToTopology mcpTools options
  let existingAsMcp := existingTools.map toMcpItem
  let m1 := existingAsMcp.foldl (fun m it => jsSet m it.id it) []
  let m2 := adaptedMcpTools.foldl (fun m it => jsSet m it.id it) m1
  m2.map Prod.snd

end Adapter

namespace Server

/-- `s.startsWith(c)` for a single-character pattern. -/
def startsWithChar (s : String) (c : Char) : Bool :=
  match s.data with
  | d :: _ => d = c
  | [] => false

/-- The quote test of the server's `normalizeUrl`: the value starts and ends
with a backtick, a double quote, or a single quote. -/
def isQuoteWrapped (v : String) : Bool :=
  (startsWithChar v (Char.ofNat 96) && endsWithChar v (Char.ofNat 96)) ||
  (startsWithChar v '"' && endsWithChar v '"') ||
  (startsWithChar v (Char.ofNat 39) && endsWithChar v (Char.ofNat 39))

/-- `normalizeUrl` from the server code in `src/README.md`: trim, strip one
matching pair of surrounding quote characters (then trim again), strip
exactly one trailing `/`. -/
def normalizeUrl (url : String) : String :=
  let value := strTrim url
  let value := if isQuoteWrapped value then strTrim (dropLast1 (dropChars 1 value)) else value
  if endsWithChar value '/' then dropLast1 value else value

/-- Modelled `new URL(s)` for plain `http://` / `https://` URLs: scheme, host
(everything up to the first `/` after the scheme), and path (the rest).
Inputs outside this fragment (other schemes, missing host) are treated as
unparseable, matching `new URL` throwing or the scheme test failing. -/
def parseHttpUrl (s : String) : Option (String × String × String) :=
  if leadsWith "http://" s then
    let rest := dropChars 7 s
    let host : String := ⟨rest.data.takeWhile (fun c => c ≠ '/')⟩
    if host = "" then none else some ("http", host, dropChars host.data.length rest)
  else if leadsWith "https://" s then
    let rest := dropChars 8 s
    let host : String := ⟨rest.data.takeWhile (fun c => c ≠ '/')⟩
    if host = "" then none else some ("https", host, dropChars host.data.length rest)
  else none

/-- `normalizeServer` from the server code in `src/README.md`: after
`normalizeUrl`, a Smithery alias URL `https://smithery.ai/server/<name>` is
rewritten to `https://server.smithery.ai/<name>` (one trailing slash
stripped); unparseable URLs pass through. -/
def normalizeServer (url : String) : String :=
  let value := normalizeUrl url
  match parseHttpUrl value with
  | some (_, host, path) =>
    if host = "smithery.ai" && leadsWith "/server/" path then
      let qualifiedName := dropChars 8 path
      let rewritten := "https://server.smithery.ai/" ++ qualifiedName
      if endsWithChar rewritten '/' then dropLast1 rewritten else rewritten
    else value
  | none => value

/-- `isHttp` from the server code: `new URL(url)` parses and the protocol is
`http:` or `https:` (never throws). -/
def isHttp (url : String) : Bool := (parseHttpUrl url).isSome

/-- `McpServer` from the server code in `src/README.md`. -/
structure McpServer where
  name : String
  url : String
  transport : Option String := none
  config : Option Json := none
  headers : Option (List (String × String)) := none

/-- The module-level `servers` map, keyed by normalized URL, in insertion
order. -/
abbrev Registry := List (String × McpServer)

/-- The server handlers' `ok(data)` / `fail(message)` result envelope. -/
inductive ApiResult (α : Type) where
  | ok (data : α)
  | fail (message : String)

/-- `POST /api/mcp/servers`: validate name/url, reject duplicate normalized
URLs, insert the new record. Returns the response and the post-state. -/
def postServer (st : Registry) (nameRaw urlRaw : String) (transport : Option String)
    (config : Option Json) (headers : Option (List (String × String))) :
    ApiResult McpServer × Registry :=
  let name := strTrim nameRaw
  let url := normalizeServer urlRaw
  if name = "" then (.fail "Server name is required", st)
  else if url = "" then (.fail "Server URL is required", st)
  else if isHttp url = false then (.fail "Server URL must be http/https", st)
  else if (lookupKey st url).isSome then (.fail "MCP server URL must be unique", st)
  else
    let server : McpServer := { name := name, url := url, transport := transport,
                                config := config, headers := headers }
    (.ok server, jsSet st url server)

/-- The request body of `PUT /api/mcp/servers`, after the handler's
`readString` / `readTransport` / `readHeaders` extraction (`nextUrl` is the
first non-empty of `nextUrl`/`newUrl`/`next_url`; absent strings read as
`""`, absent optional fields as `none`). -/
structure PutBody where
  url : String := ""
  nextUrl : String := ""
  name : String := ""
  transport : Option String := none
  config : Option Json := none
  headers : Option (List (String × String)) := none

/-- The branch of `PUT /api/mcp/servers` that runs once the current record
has been found: validate the final URL, reject an occupied different target
key, and update — migrating the entry when the URL changes, patch fields
falling back to the existing record. -/
def putServerBody (st : Registry) (body : PutBody) (existing : McpServer) :
    ApiResult McpServer × Registry :=
  let url := normalizeServer body.url
  let nextUrl := normalizeServer body.nextUrl
  let name := strTrim body.name
  let finalUrl := if nextUrl = "" then url else nextUrl
  if isHttp finalUrl = false then (.fail "Server URL must be http/https", st)
  else if finalUrl ≠ url ∧ (lookupKey st finalUrl).isSome then
    (.fail "MCP server URL must be unique", st)
  else
    let next : McpServer :=
      { name := if name = "" then existing.name else name
        url := finalUrl
        transport := body.transport <|> existing.transport
        config := body.config <|> existing.config
        headers := body.headers <|> existing.headers }
    if finalUrl ≠ url then (.ok next, jsSet (mapDelete st url) finalUrl next)
    else (.ok next, jsSet st url next)

/-- `PUT /api/mcp/servers`: look up the current record by normalized URL and
run the update branch, answering NotFound when the key is absent. -/
def putServer (st : Registry) (body : PutBody) : ApiResult McpServer × Registry :=
  let url := normalizeServer body.url
  if url = "" then (.fail "url is required", st)
  else
    match lookupKey st url with
    | none => (.fail "Server not found", st)
    | some existing => putServerBody st body existing

/-- `DELETE /api/mcp/servers`: note the key is computed with `normalizeUrl`,
not `normalizeServer`. Returns `ok(true)` for the `{ok:true}` body. -/
def deleteServer (st : Registry) (urlRaw : String) : ApiResult Bool × Registry :=
  let url := normalizeUrl urlRaw
  if url = "" then (.fail "url is required", st)
  else if (lookupKey st url).isSome then (.ok true, mapDelete st url)
  else (.fail "Server not found", st)

/-- The server code's `McpTool` has the same fields as the client's. -/
abbrev McpTool := McpExport.McpTool

/-- JS truthiness of a JSON value. -/
def truthy : Json → Bool
  | .null => false
  | .bool b => b
  | .num n => n != 0
  | .str s => s != ""
  | .arr _ => true
  | .obj _ => true

/-- JS property access `j[k]` returning `undefined` (`none`) when the value
is not an object or lacks the field. -/
def getField (j : Json) (k : String) : Option Json :=
  match j with
  | .obj fields => lookupKey fields k
  | _ => none

/-- `readString` from the server code: a string passes through, anything else
reads as `""`. -/
def readString (j : Option Json) : String :=
  match j with
  | some (.str s) => s
  | _ => ""

/-- `parseTools` from the server code in `src/README.md`: accept a bare
array, an object with a `tools` array, or an object with a `result.tools`
array; anything else is zero tools. -/
def parseTools (payload : Json) : List Json :=
  if truthy payload = false then []
  else
    match payload with
    | .arr items => items
    | _ =>
      match getField payload "tools" with
      | some (.arr items) => items
      | _ =>
        match getField payload "result" with
        | some r =>
          if truthy r then
            match getField r "tools" with
            | some (.arr items) => items
            | _ => []
          else []
        | _ => []

/-- `a ?? b` over parsed JSON fields: an explicit `null` behaves like an
absent field. -/
def nonNull (o : Option Json) : Option Json :=
  match o with
  | some .null => none
  | x => x

/-- `mapTool` from the server code: drop entries lacking a `name`;
`display_name` falls back through `display_name` → `displayName` → `name`;
`input_schema` through `input_schema` → `inputSchema` → `inputSchemaJson` →
`parameters`; empty `description` omitted; `mcp_server_name`/`url` stamped
from the querying server. -/
def mapTool (raw : Json) (server : McpServer) : Option McpTool :=
  let name := readString (getField raw "name")
  if name = "" then none
  else
    let d1 := readString (getField raw "display_name")
    let d2 := readString (getField raw "displayName")
    let display := if d1 ≠ "" then d1 else if d2 ≠ "" then d2 else name
    let description := readString (getField raw "description")
    let schema := nonNull (getField raw "input_schema") <|>
      nonNull (getField raw "inputSchema") <|>
      nonNull (getField raw "inputSchemaJson") <|>
      nonNull (getField raw "parameters")
    some { name := name
           display_name := display
           mcp_server_name := server.name
           mcp_server_url := server.url
           description := if description = "" then none else some description
           input_schema := schema }

/-- The `for (const step of steps)` loop of `listTools`: return the first
successful step's value; when every step fails, throw the last captured
error's message (`"Request failed"` when none was captured). -/
def firstSuccess : List (Except String (List McpTool)) → Option String → Except String (List McpTool)
  | [], last => .error (match last with | some m => m | none => "Request failed")
  | s :: rest, _ =>
    match s with
    | .ok v => .ok v
    | .error e => firstSuccess rest (some e)

/-- `listTools` from the server code, over the outcomes of its three
strategies `steps = [listSdk, listGet, listRpc]` in that fixed order. Each
outcome is an input: the network effects of a strategy are summarized by its
`Except` result. -/
def listTools (sdkStep getStep rpcStep : Except String (List McpTool)) :
    Except String (List McpTool) :=
  firstSuccess [sdkStep, getStep, rpcStep] none

/-- An upstream HTTP response: status plus the parsed JSON body, `none` when
`res.json()` rejects (the code's `.catch(() => null)`). -/
structure HttpResponse where
  status : Nat
  body : Option Json := none

/-- `Response.ok`: status in the 2xx range. -/
def statusOk (status : Nat) : Bool := 200 ≤ status && status < 300

/-- The shared response handling of the `listGet` (REST `GET .../tools/list`)
and `listRpc` (JSON-RPC `POST`) strategies: a failed request (e.g. timeout)
or a non-2xx status throws; otherwise the body is parsed defensively and
mapped through `mapTool`. -/
def httpStrategy (server : McpServer) (resp : Except String HttpResponse) :
    Except String (List McpTool) :=
  match resp with
  | .error e => .error e
  | .ok r =>
    if statusOk r.status = false then .error ("HTTP " ++ toString r.status)
    else .ok ((parseTools (r.body.getD Json.null)).filterMap (fun raw => mapTool raw server))

/-- The result of `GET /api/mcp/tools/all`. -/
structure AllResult where
  tools : List McpTool
  errors : List (String × String)
  serverCount : Nat

/-- The per-server arm of the `Promise.all` in `GET /api/mcp/tools/all`:
success keeps the tools with an empty error sentinel, failure keeps zero
tools and the error message. -/
def discoverStep (p : McpServer × Except String (List McpTool)) :
    McpServer × List McpTool × String :=
  match p.2 with
  | .ok tools => (p.1, tools, "")
  | .error e => (p.1, [], e)

/-- `GET /api/mcp/tools/all` over the per-server discovery outcomes (in
registry iteration order): merge all tools, collect an `{url, message}` entry
for every item whose error sentinel is non-empty, report the server count. -/
def discoverAll (outcomes : List (McpServer × Except String (List McpTool))) : AllResult :=
  let res := outcomes.map discoverStep
  { tools := res.foldl (fun acc x => acc ++ x.2.1) []
    errors := res.foldl (fun acc x => if x.2.2 = "" then acc else acc ++ [(x.1.url, x.2.2)]) []
    serverCount := outcomes.length }

end Server

theorem lookupKey_jsSet_self {α : Type} (m : List (String × α)) (k : String) (v : α) :
    lookupKey (jsSet m k v) k = some v := by
  induction m with
  | nil => simp [jsSet, lookupKey]
  | cons p rest ih =>
    by_cases h : p.1 = k
    · simp [jsSet, h, lookupKey]
    · simp [jsSet, h, lookupKey, ih]

theorem lookupKey_jsSet_ne {α : Type} (m : List (String × α)) (k k' : String) (v : α)
    (h : k' ≠ k) : lookupKey (jsSet m k v) k' = lookupKey m k' := by
  have hks : ¬(k = k') := fun hx => h hx.symm
  induction m with
  | nil => simp [jsSet, lookupKey, hks]
  | cons p rest ih =>
    by_cases hp : p.1 = k
    · have hp' : ¬(p.1 = k') := by
        intro hx
        exact hks (hp ▸ hx)
      simp only [jsSet, if_pos hp, lookupKey, if_neg hks, if_neg hp']
    · by_cases hq : p.1 = k'
      · simp only [jsSet, if_neg hp, lookupKey, if_pos hq]
      · simp only [jsSet, if_neg hp, lookupKey, if_neg hq, ih]

theorem keys_jsSet {α : Type} (m : List (String × α)) (k : String) (v : α) :
    (jsSet m k v).map Prod.fst =
      if k ∈ m.map Prod.fst then m.map Prod.fst else m.map Prod.fst ++ [k] := by
  induction m with
  | nil => simp [jsSet]
  | cons p rest ih =>
    by_cases hp : p.1 = k
    · simp [jsSet, hp]
    · have hne : ¬(k = p.1) := fun hx => hp hx.symm
      by_cases hk : k ∈ rest.map Prod.fst
      · simp [jsSet, hp, ih, hk, hne]
      · simp [jsSet, hp, ih, hk, hne]

theorem mem_keys_jsSet {α : Type} (m : List (String × α)) (k : String) (v : α) (k' : String) :
    k' ∈ (jsSet m k v).map Prod.fst ↔ k' ∈ m.map Prod.fst ∨ k' = k := by
  rw [keys_jsSet]
  by_cases hk : k ∈ m.map Prod.fst
  · rw [if_pos hk]
    constructor
    · exact Or.inl
    · rintro (h | rfl)
      · exact h
      · exact hk
  · rw [if_neg hk]
    simp

theorem jsSet_append_of_not_mem {α : Type} (m : List (String × α)) (k : String) (v : α)
    (h : k ∉ m.map Prod.fst) : jsSet m k v = m ++ [(k, v)] := by
  induction m with
  | nil => simp [jsSet]
  | cons p rest ih =>
    simp only [List.map_cons, List.mem_cons, not_or] at h
    have hp : ¬(p.1 = k) := fun hx => h.1 hx.symm
    simp [jsSet, hp, ih h.2]

theorem mem_jsSet {α : Type} (m : List (String × α)) (k : String) (v : α) (p : String × α)
    (h : p ∈ jsSet m k v) : p ∈ m ∨ p = (k, v) := by
  induction m with
  | nil => simpa [jsSet] using h
  | cons q rest ih =>
    by_cases hq : q.1 = k
    · simp only [jsSet, if_pos hq] at h
      rcases List.mem_cons.mp h with h | h
      · exact Or.inr h
      · exact Or.inl (List.mem_cons_of_mem _ h)
    · simp only [jsSet, if_neg hq] at h
      rcases List.mem_cons.mp h with h | h
      · exact Or.inl (h ▸ List.mem_cons_self _ _)
      · rcases ih h with h | h
        · exact Or.inl (List.mem_cons_of_mem _ h)
        · exact Or.inr h

theorem nodup_keys_jsSet {α : Type} (m : List (String × α)) (k : String) (v : α)
    (h : (m.map Prod.fst).Nodup) : ((jsSet m k v).map Prod.fst).Nodup := by
  rw [keys_jsSet]
  by_cases hk : k ∈ m.map Prod.fst
  · rwa [if_pos hk]
  · rw [if_neg hk]
    refine h.append (List.nodup_singleton k) ?_
    intro x hx hx'
    simp only [List.mem_singleton] at hx'
    exact hk (hx' ▸ hx)

theorem lookupKey_eq_none {α : Type} (m : List (String × α)) (k : String)
    (h : k ∉ m.map Prod.fst) : lookupKey m k = none := by
  induction m with
  | nil => simp [lookupKey]
  | cons p rest ih =>
    simp only [List.map_cons, List.mem_cons, not_or] at h
    have hp : ¬(p.1 = k) := fun hx => h.1 hx.symm
    simp [lookupKey, hp, ih h.2]

theorem lookupKey_isSome_iff {α : Type} (m : List (String × α)) (k : String) :
    (lookupKey m k).isSome = true ↔ k ∈ m.map Prod.fst := by
  induction m with
  | nil => simp [lookupKey]
  | cons p rest ih =>
    by_cases hp : p.1 = k
    · simp [lookupKey, hp]
    · have hne : ¬(k = p.1) := fun hx => hp hx.symm
      simp [lookupKey, hp, ih, hne]

theorem lookupKey_mapDelete_self {α : Type} (m : List (String × α)) (k : String) :
    lookupKey (mapDelete m k) k = none := by
  induction m with
  | nil => simp [mapDelete, lookupKey]
  | cons p rest ih =>
    by_cases hp : p.1 = k
    · simpa [mapDelete, List.filter_cons, hp] using ih
    · simpa [mapDelete, List.filter_cons, lookupKey, hp] using ih

theorem lookupKey_mapDelete_ne {α : Type} (m : List (String × α)) (k k' : String)
    (h : k' ≠ k) : lookupKey (mapDelete m k) k' = lookupKey m k' := by
  induction m with
  | nil => simp [mapDelete]
  | cons p rest ih =>
    by_cases hp : p.1 = k
    · have hp' : ¬(p.1 = k') := by
        intro hx
        exact h (by rw [← hx, hp])
      have hks : ¬(k = k') := fun hx => h hx.symm
      simpa [mapDelete, List.filter_cons, hp, lookupKey, hp', h, hks] using ih
    · by_cases hq : p.1 = k'
      · simp [mapDelete, List.filter_cons, hp, lookupKey, hq, h]
      · simpa [mapDelete, List.filter_cons, hp, lookupKey, hq, h] using ih

theorem str_ext {s t : String} (h : s.data = t.data) : s = t := by
  cases s
  cases t
  exact congrArg String.mk h

theorem colonColon_data : ("::" : String).data = [':', ':'] := rfl

theorem takeWhile_append_all (p : Char → Bool) (a b : List Char)
    (ha : ∀ c ∈ a, p c = true) : (a ++ b).takeWhile p = a ++ b.takeWhile p := by
  induction a with
  | nil => simp
  | cons c cs ih =>
    have hc : p c = true := ha c (by simp)
    have hcs : ∀ d ∈ cs, p d = true := fun d hd => ha d (by simp [hd])
    simp [List.takeWhile_cons, hc, ih hcs]

theorem takeWhile_sep_suffix (u w : List Char) (hw : ∀ c ∈ w, c ≠ ':') :
    ((u ++ ':' :: ':' :: w).reverse.takeWhile (fun c => c != ':')) = w.reverse := by
  rw [List.reverse_append]
  have h2 : (':' :: ':' :: w).reverse = w.reverse ++ [':', ':'] := by simp
  rw [h2, List.append_assoc]
  rw [takeWhile_append_all _ _ _ ?_]
  · simp [List.takeWhile_cons]
  · intro c hc
    have := hw c (by simpa using hc)
    simpa [bne_iff_ne] using this

theorem sep_split (xs ys xs' ys' : List Char)
    (hy : ∀ c ∈ ys, c ≠ ':') (hy' : ∀ c ∈ ys', c ≠ ':')
    (h : xs ++ ':' :: ':' :: ys = xs' ++ ':' :: ':' :: ys') : xs = xs' ∧ ys = ys' := by
  have hrev := congrArg List.reverse h
  have ht := congrArg (List.takeWhile (fun c => c != ':')) hrev
  rw [takeWhile_sep_suffix _ _ hy, takeWhile_sep_suffix _ _ hy'] at ht
  have hys : ys = ys' := List.reverse_injective ht
  subst hys
  refine ⟨List.append_cancel_right h, rfl⟩

theorem key_split (u n u' n' : String)
    (hn : ∀ c ∈ n.data, c ≠ ':') (hn' : ∀ c ∈ n'.data, c ≠ ':')
    (h : u ++ "::" ++ n = u' ++ "::" ++ n') : u = u' ∧ n = n' := by
  have hd : u.data ++ ':' :: ':' :: n.data = u'.data ++ ':' :: ':' :: n'.data := by
    have hq := congrArg String.data h
    simpa [String.data_append, colonColon_data, List.append_assoc] using hq
  rcases sep_split _ _ _ _ hn hn' hd with ⟨h1, h2⟩
  exact ⟨str_ext h1, str_ext h2⟩

/-- Helper: a string not ending in `/` is a fixed point of the export
`normalizeUrl`. -/
theorem normalizeUrl_fix (y : String) (h : endsWithChar y '/' = false) :
    McpExport.normalizeUrl y = y := by
  by_cases hy : y = ""
  · simp [McpExport.normalizeUrl, hy]
  · simp [McpExport.normalizeUrl, hy, h]

/-- C5 (counterexample): `normalizeUrl` strips exactly one trailing slash, so
on `"https://e//"` a second application strips a second slash — normalization
is not idempotent for every string. -/
theorem normalizeUrl_c5_counterexample :
    ¬(McpExport.normalizeUrl (McpExport.normalizeUrl "https://e//") =
      McpExport.normalizeUrl "https://e//") := by
  decide

/-- C5 (amended): URL normalization is idempotent for every string whose
normalization does not itself end in `/` (equivalently, every string not
ending in `//`); on such strings `normalize(normalize(x)) == normalize(x)`. -/
theorem normalizeUrl_c5_idempotent (x : String)
    (h : endsWithChar (McpExport.normalizeUrl x) '/' = false) :
    McpExport.normalizeUrl (McpExport.normalizeUrl x) = McpExport.normalizeUrl x :=
  normalizeUrl_fix (McpExport.normalizeUrl x) h

/-- C5 witness: the amended idempotence applied at `"https://example.com/"`. -/
theorem normalizeUrl_c5_witness :
    endsWithChar (McpExport.normalizeUrl "https://example.com/") '/' = false ∧
    McpExport.normalizeUrl (McpExport.normalizeUrl "https://example.com/") =
      McpExport.normalizeUrl "https://example.com/" :=
  ⟨by decide, normalizeUrl_c5_idempotent "https://example.com/" (by decide)⟩

/-- C2 (counterexample): the concatenated key is not injective over
(url, name) pairs once a name may contain `::` — the tools
`{url:"a", name:"b::c"}` and `{url:"a::b", name:"c"}` share the key
`"a::b::c"` while their (normalized url, name) pairs differ. -/
theorem createToolKey_c2_counterexample :
    McpExport.createToolKey
        { name := "b::c", display_name := "", mcp_server_name := "", mcp_server_url := "a" } =
      .ok "a::b::c" ∧
    McpExport.createToolKey
        { name := "c", display_name := "", mcp_server_name := "", mcp_server_url := "a::b" } =
      .ok "a::b::c" ∧
    ¬(McpExport.normalizeUrl "a" = McpExport.normalizeUrl "a::b" ∧ ("b::c" : String) = "c") :=
  ⟨rfl, rfl, by decide⟩

/-- C2 (amended): `createToolKey` fails iff the raw `mcp_server_url` or
`name` is empty, otherwise returns `normalize(mcp_server_url) + "::" + name`
(deterministically); the key is injective over (url, name) pairs after
normalization provided the names contain no `:` character (for arbitrary
names the separator is ambiguous, see the counterexample). -/
theorem createToolKey_c2 (t₁ t₂ : McpExport.McpTool) :
    ((∃ e, McpExport.createToolKey t₁ = .error e) ↔
      (t₁.mcp_server_url = "" ∨ t₁.name = "")) ∧
    (t₁.mcp_server_url ≠ "" → t₁.name ≠ "" →
      McpExport.createToolKey t₁ =
        .ok (McpExport.normalizeUrl t₁.mcp_server_url ++ "::" ++ t₁.name)) ∧
    ((∀ c ∈ t₁.name.data, c ≠ ':') → (∀ c ∈ t₂.name.data, c ≠ ':') →
      t₁.mcp_server_url ≠ "" → t₁.name ≠ "" → t₂.mcp_server_url ≠ "" → t₂.name ≠ "" →
      McpExport.createToolKey t₁ = McpExport.createToolKey t₂ →
      McpExport.normalizeUrl t₁.mcp_server_url = McpExport.normalizeUrl t₂.mcp_server_url ∧
        t₁.name = t₂.name) := by
  refine ⟨?_, ?_, ?_⟩
  · constructor
    · rintro ⟨e, he⟩
      by_cases hu : t₁.mcp_server_url = ""
      · exact Or.inl hu
      · by_cases hn : t₁.name = ""
        · exact Or.inr hn
        · simp [McpExport.createToolKey, hu, hn] at he
    · rintro (hu | hn)
      · exact ⟨"tool.mcp_server_url is required", by simp [McpExport.createToolKey, hu]⟩
      · by_cases hu : t₁.mcp_server_url = ""
        · exact ⟨"tool.mcp_server_url is required", by simp [McpExport.createToolKey, hu]⟩
        · exact ⟨"tool.name is required", by simp [McpExport.createToolKey, hu, hn]⟩
  · intro hu hn
    simp [McpExport.createToolKey, hu, hn]
  · intro hc1 hc2 hu1 hn1 hu2 hn2 heq
    simp only [McpExport.createToolKey, if_neg hu1, if_neg hn1, if_neg hu2, if_neg hn2,
      Except.ok.injEq] at heq
    exact key_split _ _ _ _ hc1 hc2 heq

/-- C2 witness: the amended theorem applied to two concrete tools with
colon-free names `"read"` whose keys agree. -/
theorem createToolKey_c2_witness :
    McpExport.normalizeUrl "https://example.com/" = McpExport.normalizeUrl "https://example.com" ∧
    ("read" : String) = "read" :=
  (createToolKey_c2
      { name := "read", display_name := "", mcp_server_name := "",
        mcp_server_url := "https://example.com/" }
      { name := "read", display_name := "", mcp_server_name := "",
        mcp_server_url := "https://example.com" }).2.2
    (by decide) (by decide) (by decide) (by decide) (by decide) (by decide) rfl

namespace McpExport

theorem buildInterrupt_ok (ts : List ExportedTool) (acc : List (String × Bool))
    (h : ∀ t ∈ ts, t.name ≠ "" ∧ t.mcp_server_url ≠ "") :
    buildInterrupt ts acc =
      .ok (ts.foldl (fun m t => jsSet m (interruptKey t) true) acc) := by
  induction ts generalizing acc with
  | nil => simp [buildInterrupt]
  | cons t rest ih =>
    have ht := h t (by simp)
    simp [buildInterrupt, ht.1, ht.2, ih _ (fun x hx => h x (by simp [hx]))]

theorem buildInterrupt_error (ts : List ExportedTool) (acc : List (String × Bool))
    (h : ∃ t ∈ ts, t.name = "" ∨ t.mcp_server_url = "") :
    ∃ e, buildInterrupt ts acc = .error e := by
  induction ts generalizing acc with
  | nil => simp at h
  | cons t rest ih =>
    by_cases h1 : t.name = ""
    · exact ⟨"tool.name is required", by simp [buildInterrupt, h1]⟩
    · by_cases h2 : t.mcp_server_url = ""
      · exact ⟨"tool.mcp_server_url is required", by simp [buildInterrupt, h1, h2]⟩
      · have hrest : ∃ x ∈ rest, x.name = "" ∨ x.mcp_server_url = "" := by
          rcases h with ⟨x, hx, hbad⟩
          rcases List.mem_cons.mp hx with rfl | hx'
          · exact absurd hbad (by simp [h1, h2])
          · exact ⟨x, hx', hbad⟩
        rcases ih (jsSet acc (interruptKey t) true) hrest with ⟨e, he⟩
        exact ⟨e, by simp [buildInterrupt, h1, h2, he]⟩

theorem foldl_jsSet_values (ts : List ExportedTool) (acc : List (String × Bool))
    (h : ∀ p ∈ acc, p.2 = true) :
    ∀ p ∈ ts.foldl (fun m t => jsSet m (interruptKey t) true) acc, p.2 = true := by
  induction ts generalizing acc with
  | nil => simpa using h
  | cons t rest ih =>
    intro p hp
    refine ih (jsSet acc (interruptKey t) true) ?_ p hp
    intro q hq
    rcases mem_jsSet _ _ _ _ hq with hq | rfl
    · exact h q hq
    · rfl

theorem foldl_jsSet_keys_mono (ts : List ExportedTool) (acc : List (String × Bool))
    (k : String) (h : k ∈ acc.map Prod.fst) :
    k ∈ (ts.foldl (fun m t => jsSet m (interruptKey t) true) acc).map Prod.fst := by
  induction ts generalizing acc with
  | nil => simpa using h
  | cons t rest ih =>
    exact ih _ ((mem_keys_jsSet acc (interruptKey t) true k).mpr (Or.inl h))

theorem foldl_jsSet_keys_cover (ts : List ExportedTool) (acc : List (String × Bool)) :
    ∀ t ∈ ts, interruptKey t ∈
      (ts.foldl (fun m t => jsSet m (interruptKey t) true) acc).map Prod.fst := by
  induction ts generalizing acc with
  | nil => simp
  | cons t rest ih =>
    intro x hx
    rcases List.mem_cons.mp hx with rfl | hx'
    · exact foldl_jsSet_keys_mono rest _ _
        ((mem_keys_jsSet acc (interruptKey x) true _).mpr (Or.inr rfl))
    · exact ih _ x hx'

theorem foldl_jsSet_origin (ts : List ExportedTool) (acc : List (String × Bool)) :
    ∀ p ∈ ts.foldl (fun m t => jsSet m (interruptKey t) true) acc,
      p ∈ acc ∨ ∃ t ∈ ts, interruptKey t = p.1 := by
  induction ts generalizing acc with
  | nil => simp
  | cons t rest ih =>
    intro p hp
    rcases ih _ p hp with hq | ⟨x, hx, hk⟩
    · rcases mem_jsSet _ _ _ _ hq with hq | rfl
      · exact Or.inl hq
      · exact Or.inr ⟨t, by simp, rfl⟩
    · exact Or.inr ⟨x, by simp [hx], hk⟩

theorem foldl_jsSet_nodup (ts : List ExportedTool) (acc : List (String × Bool))
    (h : (acc.map Prod.fst).Nodup) :
    ((ts.foldl (fun m t => jsSet m (interruptKey t) true) acc).map Prod.fst).Nodup := by
  induction ts generalizing acc with
  | nil => simpa using h
  | cons t rest ih =>
    exact ih _ (nodup_keys_jsSet acc (interruptKey t) true h)

end McpExport

theorem lookup_true_of_mem {m : List (String × Bool)} {k : String}
    (h1 : ∀ p ∈ m, p.2 = true) (h2 : k ∈ m.map Prod.fst) : lookupKey m k = some true := by
  induction m with
  | nil => simp at h2
  | cons p rest ih =>
    by_cases hp : p.1 = k
    · have := h1 p (by simp)
      simp [lookupKey, hp, this]
    · have h2' : k ∈ rest.map Prod.fst := by
        rcases List.mem_cons.mp h2 with h | h
        · exact absurd h.symm hp
        · exact h
      simp [lookupKey, hp, ih (fun q hq => h1 q (by simp [hq])) h2']

/-- C1 (counterexample): the tool with the non-empty URL `"/"` has every
field non-empty, yet `createConfig` throws, because the URL check runs on
the normalized URL, and `normalizeUrl "/" = ""`. -/
theorem createConfig_c1_counterexample :
    (∀ t ∈ [({ name := "read", display_name := "read", mcp_server_name := "S",
               mcp_server_url := "/" } : McpExport.McpTool)],
        t.name ≠ "" ∧ t.mcp_server_url ≠ "") ∧
    McpExport.createConfig
        [{ name := "read", display_name := "read", mcp_server_name := "S",
           mcp_server_url := "/" }] =
      .error "tool.mcp_server_url is required" :=
  ⟨by decide, rfl⟩

/-- C1 (amended): for every list of tools in which every tool has a
non-empty `name` and a `mcp_server_url` whose normalization is non-empty
(i.e. neither `""` nor `"/"`), `createConfig` succeeds: its `tools` sequence
is the input mapped through per-tool normalization, order and length
preserved (no sort, no dedup); `interrupt_config` maps each tool's
`normalize(url)::name::server_name` key to `true`; every entry of
`interrupt_config` is `true` and belongs to some tool; keys are not
duplicated. If some tool's `name` or normalized `mcp_server_url` is empty,
the whole build fails. -/
theorem createConfig_c1 (tools : List McpExport.McpTool) :
    ((∀ t ∈ tools, t.name ≠ "" ∧ McpExport.normalizeUrl t.mcp_server_url ≠ "") →
      ∃ cfg, McpExport.createConfig tools = .ok cfg ∧
        cfg.tools = tools.map McpExport.normalizeTool ∧
        (∀ t ∈ tools, lookupKey cfg.interrupt_config
            (McpExport.interruptKey (McpExport.normalizeTool t)) = some true) ∧
        (∀ p ∈ cfg.interrupt_config, p.2 = true ∧
          ∃ t ∈ tools, McpExport.interruptKey (McpExport.normalizeTool t) = p.1) ∧
        (cfg.interrupt_config.map Prod.fst).Nodup) ∧
    ((∃ t ∈ tools, t.name = "" ∨ McpExport.normalizeUrl t.mcp_server_url = "") →
      ∃ e, McpExport.createConfig tools = .error e) := by
  constructor
  · intro h
    have h' : ∀ nt ∈ tools.map McpExport.normalizeTool, nt.name ≠ "" ∧ nt.mcp_server_url ≠ "" := by
      intro nt hnt
      rcases List.mem_map.mp hnt with ⟨t, ht, rfl⟩
      exact h t ht
    have hok := McpExport.buildInterrupt_ok (tools.map McpExport.normalizeTool) [] h'
    refine ⟨{ tools := tools.map McpExport.normalizeTool,
              interrupt_config := (tools.map McpExport.normalizeTool).foldl
                (fun m t => jsSet m (McpExport.interruptKey t) true) [] },
      by simp [McpExport.createConfig, hok], rfl, ?_, ?_, ?_⟩
    · intro t ht
      refine lookup_true_of_mem (McpExport.foldl_jsSet_values _ _ (by simp)) ?_
      exact McpExport.foldl_jsSet_keys_cover _ _ _ (List.mem_map_of_mem _ ht)
    · intro p hp
      refine ⟨McpExport.foldl_jsSet_values _ _ (by simp) p hp, ?_⟩
      rcases McpExport.foldl_jsSet_origin _ _ p hp with hq | ⟨nt, hnt, hk⟩
      · simp at hq
      · rcases List.mem_map.mp hnt with ⟨t, ht, rfl⟩
        exact ⟨t, ht, hk⟩
    · exact McpExport.foldl_jsSet_nodup _ _ (by simp)
  · intro h
    rcases h with ⟨t, ht, hbad⟩
    have h' : ∃ nt ∈ tools.map McpExport.normalizeTool, nt.name = "" ∨ nt.mcp_server_url = "" :=
      ⟨McpExport.normalizeTool t, List.mem_map_of_mem _ ht, by
        rcases hbad with hb | hb
        · exact Or.inl (by simp [McpExport.normalizeTool, hb])
        · exact Or.inr (by simp [McpExport.normalizeTool, hb])⟩
    rcases McpExport.buildInterrupt_error _ [] h' with ⟨e, he⟩
    exact ⟨e, by simp [McpExport.createConfig, he]⟩

/-- C1 witness: the amended theorem applied to the spec's one-tool example
list. -/
theorem createConfig_c1_witness :
    (∀ t ∈ [({ name := "read_url_content", display_name := "read_url_content",
               mcp_server_name := "Agent Builder",
               mcp_server_url := "https://example.com/" } : McpExport.McpTool)],
        t.name ≠ "" ∧ McpExport.normalizeUrl t.mcp_server_url ≠ "") ∧
    (∃ cfg, McpExport.createConfig
        [{ name := "read_url_content", display_name := "read_url_content",
           mcp_server_name := "Agent Builder", mcp_server_url := "https://example.com/" }] =
        .ok cfg ∧
      cfg.tools = [({ name := "read_url_content", display_name := "read_url_content",
                      mcp_server_name := "Agent Builder",
                      mcp_server_url := "https://example.com/" } : McpExport.McpTool)].map
          McpExport.normalizeTool ∧
      (∀ t ∈ [({ name := "read_url_content", display_name := "read_url_content",
                 mcp_server_name := "Agent Builder",
                 mcp_server_url := "https://example.com/" } : McpExport.McpTool)],
          lookupKey cfg.interrupt_config
            (McpExport.interruptKey (McpExport.normalizeTool t)) = some true) ∧
      (∀ p ∈ cfg.interrupt_config, p.2 = true ∧
        ∃ t ∈ [({ name := "read_url_content", display_name := "read_url_content",
                  mcp_server_name := "Agent Builder",
                  mcp_server_url := "https://example.com/" } : McpExport.McpTool)],
          McpExport.interruptKey (McpExport.normalizeTool t) = p.1) ∧
      (cfg.interrupt_config.map Prod.fst).Nodup) :=
  ⟨by decide,
    (createConfig_c1
        [{ name := "read_url_content", display_name := "read_url_content",
           mcp_server_name := "Agent Builder",
           mcp_server_url := "https://example.com/" }]).1 (by decide)⟩

/-- C4: the discovery cascade attempts its strategies in the fixed order
structured-client (`listSdk`), REST GET (`listGet`), JSON-RPC POST
(`listRpc`); the first success determines the result and later strategies
cannot influence it; when all three fail the surfaced error is the last one
(the JSON-RPC strategy's). -/
theorem listTools_c4 (sdkStep getStep rpcStep : Except String (List Server.McpTool)) :
    (∀ v, sdkStep = .ok v → Server.listTools sdkStep getStep rpcStep = .ok v) ∧
    (∀ v, sdkStep = .ok v → ∀ g r,
      Server.listTools sdkStep getStep rpcStep = Server.listTools sdkStep g r) ∧
    (∀ e v, sdkStep = .error e → getStep = .ok v →
      Server.listTools sdkStep getStep rpcStep = .ok v) ∧
    (∀ e v, sdkStep = .error e → getStep = .ok v → ∀ r,
      Server.listTools sdkStep getStep rpcStep = Server.listTools sdkStep getStep r) ∧
    (∀ e₁ e₂ v, sdkStep = .error e₁ → getStep = .error e₂ → rpcStep = .ok v →
      Server.listTools sdkStep getStep rpcStep = .ok v) ∧
    (∀ e₁ e₂ e₃, sdkStep = .error e₁ → getStep = .error e₂ → rpcStep = .error e₃ →
      Server.listTools sdkStep getStep rpcStep = .error e₃) := by
  refine ⟨?_, ?_, ?_, ?_, ?_, ?_⟩
  · rintro v rfl
    simp [Server.listTools, Server.firstSuccess]
  · rintro v rfl g r
    simp [Server.listTools, Server.firstSuccess]
  · rintro e v rfl rfl
    simp [Server.listTools, Server.firstSuccess]
  · rintro e v rfl rfl r
    simp [Server.listTools, Server.firstSuccess]
  · rintro e₁ e₂ v rfl rfl rfl
    simp [Server.listTools, Server.firstSuccess]
  · rintro e₁ e₂ e₃ rfl rfl rfl
    simp [Server.listTools, Server.firstSuccess]

/-- C4 witness: the cascade evaluated on concrete outcomes for each of the
four shapes (sdk wins, get wins, rpc wins, all fail with the rpc error
surfaced). -/
theorem listTools_c4_witness :
    Server.listTools (.ok []) (.error "get failed") (.error "rpc failed") = .ok [] ∧
    Server.listTools (.error "sdk failed") (.ok []) (.error "rpc failed") = .ok [] ∧
    Server.listTools (.error "sdk failed") (.error "get failed") (.ok []) = .ok [] ∧
    Server.listTools (.error "sdk failed") (.error "get failed") (.error "rpc failed") =
      .error "rpc failed" :=
  ⟨(listTools_c4 (.ok []) (.error "get failed") (.error "rpc failed")).1 [] rfl,
   (listTools_c4 (.error "sdk failed") (.ok []) (.error "rpc failed")).2.2.1
     "sdk failed" [] rfl rfl,
   (listTools_c4 (.error "sdk failed") (.error "get failed") (.ok [])).2.2.2.2.1
     "sdk failed" "get failed" [] rfl rfl rfl,
   (listTools_c4 (.error "sdk failed") (.error "get failed") (.error "rpc failed")).2.2.2.2.2
     "sdk failed" "get failed" "rpc failed" rfl rfl rfl⟩

/-- C9: in the REST GET and JSON-RPC strategies (`httpStrategy` models their
shared response handling) a 2xx response whose body fails to parse as JSON
(`body = none`) or matches no recognized tool-list shape
(`parseTools b = []`) is a success with zero tools; the strategy fails iff
the request itself failed (e.g. timeout) or the status is non-2xx. -/
theorem httpStrategy_c9 (server : Server.McpServer) (resp : Except String Server.HttpResponse) :
    (∀ r, resp = .ok r → Server.statusOk r.status = true → r.body = none →
      Server.httpStrategy server resp = .ok []) ∧
    (∀ r b, resp = .ok r → Server.statusOk r.status = true → r.body = some b →
      Server.parseTools b = [] → Server.httpStrategy server resp = .ok []) ∧
    ((∃ e, Server.httpStrategy server resp = .error e) ↔
      (∃ e, resp = .error e) ∨ (∃ r, resp = .ok r ∧ Server.statusOk r.status = false)) := by
  refine ⟨?_, ?_, ?_⟩
  · rintro r rfl hok hbody
    simp [Server.httpStrategy, hok, hbody, show Server.parseTools Json.null = [] from rfl]
  · rintro r b rfl hok hbody hparse
    simp [Server.httpStrategy, hok, hbody, hparse]
  · cases resp with
    | error e => simp [Server.httpStrategy]
    | ok r =>
      cases hok : Server.statusOk r.status with
      | false => simp [Server.httpStrategy, hok]
      | true => simp [Server.httpStrategy, hok]

/-- C9 witness: a 2xx response with an unparseable body and a 2xx response
with an unrecognized JSON shape both yield zero tools. -/
theorem httpStrategy_c9_witness :
    Server.httpStrategy { name := "s", url := "http://a" } (.ok { status := 200 }) = .ok [] ∧
    Server.httpStrategy { name := "s", url := "http://a" }
      (.ok { status := 204, body := some (Json.str "weird") }) = .ok [] :=
  ⟨(httpStrategy_c9 { name := "s", url := "http://a" } (.ok { status := 200 })).1
      { status := 200 } rfl rfl rfl,
   (httpStrategy_c9 { name := "s", url := "http://a" }
        (.ok { status := 204, body := some (Json.str "weird") })).2.1
      { status := 204, body := some (Json.str "weird") } (Json.str "weird") rfl rfl rfl rfl⟩

/-- Helper for stating the aggregation claim: whether a per-server discovery
outcome is a failure. -/
def Server.isFailure (r : Except String (List Server.McpTool)) : Bool :=
  match r with
  | .error _ => true
  | .ok _ => false

theorem foldl_append_flatten {α β : Type} (f : α → List β) :
    ∀ (l : List α) (init : List β),
      l.foldl (fun acc x => acc ++ f x) init = init ++ (l.map f).flatten := by
  intro l
  induction l with
  | nil => intro init; simp
  | cons a rest ih => intro init; simp [ih, List.append_assoc]

theorem errors_foldl (l : List (Server.McpServer × List Server.McpTool × String)) :
    ∀ init : List (String × String),
      l.foldl (fun acc x => if x.2.2 = "" then acc else acc ++ [(x.1.url, x.2.2)]) init =
        init ++ l.filterMap (fun x => if x.2.2 = "" then none else some (x.1.url, x.2.2)) := by
  induction l with
  | nil => intro init; simp
  | cons a rest ih =>
    intro init
    by_cases hc : a.2.2 = ""
    · simp [List.foldl_cons, List.filterMap_cons, hc, ih]
    · simp [List.foldl_cons, List.filterMap_cons, hc, ih, List.append_assoc]

theorem errors_char :
    ∀ outcomes : List (Server.McpServer × Except String (List Server.McpTool)),
      (∀ p ∈ outcomes, ∀ e, p.2 = Except.error e → e ≠ "") →
      (outcomes.map Server.discoverStep).filterMap
          (fun x => if x.2.2 = "" then none else some (x.1.url, x.2.2)) =
        outcomes.filterMap
          (fun p => match p.2 with | .error e => some (p.1.url, e) | .ok _ => none) := by
  intro outcomes
  induction outcomes with
  | nil => intro _; rfl
  | cons p rest ih =>
    intro h
    have ih' := ih (fun q hq e he => h q (by simp [hq]) e he)
    rw [List.map_cons, List.filterMap_cons, List.filterMap_cons]
    cases hq : p.2 with
    | ok ts => simpa [Server.discoverStep, hq] using ih'
    | error e =>
      have he : e ≠ "" := h p (by simp) e hq
      simpa [Server.discoverStep, hq, he] using ih'

theorem filterMap_err_length
    (l : List (Server.McpServer × Except String (List Server.McpTool))) :
    (l.filterMap
        (fun p => match p.2 with | .error e => some (p.1.url, e) | .ok _ => none)).length =
      l.countP (fun p => Server.isFailure p.2) := by
  induction l with
  | nil => rfl
  | cons p rest ih =>
    cases hq : p.2 with
    | ok ts => simp [List.filterMap_cons, List.countP_cons, hq, Server.isFailure, ih]
    | error e => simp [List.filterMap_cons, List.countP_cons, hq, Server.isFailure, ih]

/-- C3 (counterexample): a single server failing with an empty error message
is a failure (`k = 1`) that contributes no `{url, message}` entry, so
`errors.length = 0 ≠ k`. -/
theorem discoverAll_c3_counterexample :
    (Server.discoverAll [({ name := "s", url := "http://a" }, .error "")]).serverCount = 1 ∧
    Server.isFailure (Except.error "" : Except String (List Server.McpTool)) = true ∧
    (Server.discoverAll [({ name := "s", url := "http://a" }, .error "")]).errors.length = 0 :=
  ⟨rfl, rfl, rfl⟩

/-- C3 (amended): `discoverAll` never throws (it is total); for every
sequence of per-server outcomes in which every failure carries a non-empty
message, it returns `serverCount = n`, the merged tools are the
concatenation of each succeeding server's tools in server order (failing
servers contribute zero tools), `errors` holds exactly one `{url, message}`
entry per failing server in order, and hence `errors.length = k`. A failure
whose message is the empty string is dropped from `errors` (the handler uses
`""` as its success sentinel), which is the only deviation from the original
claim. -/
theorem discoverAll_c3 (outcomes : List (Server.McpServer × Except String (List Server.McpTool)))
    (h : ∀ p ∈ outcomes, ∀ e, p.2 = Except.error e → e ≠ "") :
    (Server.discoverAll outcomes).serverCount = outcomes.length ∧
    (Server.discoverAll outcomes).tools =
      (outcomes.map (fun p => match p.2 with | .ok ts => ts | .error _ => [])).flatten ∧
    (Server.discoverAll outcomes).errors =
      outcomes.filterMap
        (fun p => match p.2 with | .error e => some (p.1.url, e) | .ok _ => none) ∧
    (Server.discoverAll outcomes).errors.length =
      outcomes.countP (fun p => Server.isFailure p.2) := by
  have herrors : (Server.discoverAll outcomes).errors =
      outcomes.filterMap
        (fun p => match p.2 with | .error e => some (p.1.url, e) | .ok _ => none) := by
    show (outcomes.map Server.discoverStep).foldl
        (fun acc x => if x.2.2 = "" then acc else acc ++ [(x.1.url, x.2.2)]) [] = _
    rw [errors_foldl (outcomes.map Server.discoverStep) [], List.nil_append]
    exact errors_char outcomes h
  refine ⟨rfl, ?_, herrors, ?_⟩
  · show (outcomes.map Server.discoverStep).foldl (fun acc x => acc ++ x.2.1) [] = _
    rw [foldl_append_flatten
        (fun x : Server.McpServer × List Server.McpTool × String => x.2.1)
        (outcomes.map Server.discoverStep) [],
      List.nil_append, List.map_map]
    congr 1
    apply List.map_congr_left
    intro p _
    cases hq : p.2 with
    | ok ts => simp [Server.discoverStep, hq]
    | error e => simp [Server.discoverStep, hq]
  · rw [herrors]
    exact filterMap_err_length outcomes

/-- The concrete outcome list used by the C3 witness: one succeeding server
with one tool, one failing server with message `"boom"`. -/
def c3WitnessInput : List (Server.McpServer × Except String (List Server.McpTool)) :=
  [({ name := "s1", url := "http://a" },
    .ok [{ name := "t", display_name := "t", mcp_server_name := "s1",
           mcp_server_url := "http://a" }]),
   ({ name := "s2", url := "http://b" }, .error "boom")]

/-- C3 witness: two servers, one succeeding with one tool and one failing
with message `"boom"`: `serverCount = 2` and one error entry. -/
theorem discoverAll_c3_witness :
    (Server.discoverAll c3WitnessInput).serverCount = 2 ∧
    (Server.discoverAll c3WitnessInput).errors.length = 1 := by
  have h : ∀ p ∈ c3WitnessInput, ∀ e, p.2 = Except.error e → e ≠ "" := by
    intro p hp e he
    rcases List.mem_cons.mp hp with rfl | hp'
    · simp at he
    · rcases List.mem_cons.mp hp' with rfl | hp''
      · simp only [Except.error.injEq] at he
        subst he
        decide
      · simp at hp''
  have hmain := discoverAll_c3 c3WitnessInput h
  exact ⟨hmain.1.trans rfl, hmain.2.2.2.trans rfl⟩

/-- C6 (counterexample): `POST` keys the registry with `normalizeServer`
(which unwraps the Smithery alias) but `DELETE` looks up with the plain
`normalizeUrl`, so deleting a registered Smithery-alias server by the very
URL used to add it yields `Server not found`. -/
theorem registry_c6_counterexample :
    Server.normalizeServer "https://smithery.ai/server/foo" = "https://server.smithery.ai/foo" ∧
    Server.normalizeUrl "https://smithery.ai/server/foo" = "https://smithery.ai/server/foo" ∧
    (Server.postServer [] "Smithery" "https://smithery.ai/server/foo" none none none).2 =
      [("https://server.smithery.ai/foo",
        { name := "Smithery", url := "https://server.smithery.ai/foo" })] ∧
    (Server.deleteServer
        [("https://server.smithery.ai/foo",
          { name := "Smithery", url := "https://server.smithery.ai/foo" })]
        "https://smithery.ai/server/foo").1 = Server.ApiResult.fail "Server not found" :=
  ⟨rfl, rfl, rfl, rfl⟩

/-- C6 (amended): add, update and lookup key the registry by
`normalizeServer`, while remove keys by `normalizeUrl` (trim/quote/slash
only, no alias unwrapping). Adding a server whose URL `normalizeServer`-maps
to a present key fails with Conflict and leaves the registry unchanged;
remove succeeds for any URL variant that `normalizeUrl` maps to a present
key; update (the lookup surface) never answers NotFound for a URL variant
that `normalizeServer` maps to a present key. A variant that only
`normalizeServer` (not `normalizeUrl`) maps to the present key makes remove
answer NotFound — see the counterexample. -/
theorem registry_c6 (st : Server.Registry) (nameRaw v w : String) (t : Option String)
    (c : Option Json) (hd : Option (List (String × String))) (body : Server.PutBody) :
    (strTrim nameRaw ≠ "" → Server.normalizeServer v ≠ "" →
      Server.isHttp (Server.normalizeServer v) = true →
      (lookupKey st (Server.normalizeServer v)).isSome = true →
      Server.postServer st nameRaw v t c hd = (.fail "MCP server URL must be unique", st)) ∧
    ((lookupKey st (Server.normalizeUrl w)).isSome = true → Server.normalizeUrl w ≠ "" →
      (Server.deleteServer st w).1 = .ok true ∧
      (Server.deleteServer st w).2 = mapDelete st (Server.normalizeUrl w)) ∧
    (Server.normalizeServer body.url ≠ "" →
      (lookupKey st (Server.normalizeServer body.url)).isSome = true →
      (Server.putServer st body).1 ≠ .fail "Server not found") := by
  refine ⟨?_, ?_, ?_⟩
  · intro hname hurl hhttp hdup
    simp only [Server.postServer]
    rw [if_neg hname, if_neg hurl, if_neg (by simp [hhttp]), if_pos hdup]
  · intro hmem hurl
    constructor
    · simp only [Server.deleteServer]
      rw [if_neg hurl, if_pos hmem]
    · simp only [Server.deleteServer]
      rw [if_neg hurl, if_pos hmem]
  · intro hurl hsome h
    rcases Option.isSome_iff_exists.mp hsome with ⟨ex, hex⟩
    have h1 : Server.putServer st body = Server.putServerBody st body ex := by
      simp only [Server.putServer]
      rw [if_neg hurl, hex]
    rw [h1] at h
    simp only [Server.putServerBody] at h
    split_ifs at h <;> simp_all

/-- C6 witness: with `https://example.com` registered, adding
`https://example.com/` (trailing-slash variant) conflicts and leaves the
registry unchanged; deleting by the trailing-slash variant succeeds and
removes the record; updating by the trailing-slash variant does not answer
NotFound. -/
theorem registry_c6_witness :
    Server.postServer [("https://example.com", { name := "A", url := "https://example.com" })]
        "B" "https://example.com/" none none none =
      (.fail "MCP server URL must be unique",
       [("https://example.com", { name := "A", url := "https://example.com" })]) ∧
    (Server.deleteServer [("https://example.com", { name := "A", url := "https://example.com" })]
        "https://example.com/").1 = .ok true ∧
    (Server.deleteServer [("https://example.com", { name := "A", url := "https://example.com" })]
        "https://example.com/").2 =
      mapDelete [("https://example.com", { name := "A", url := "https://example.com" })]
        "https://example.com" ∧
    (Server.putServer [("https://example.com", { name := "A", url := "https://example.com" })]
        { url := "https://example.com/" }).1 ≠ Server.ApiResult.fail "Server not found" := by
  have h := registry_c6 [("https://example.com", { name := "A", url := "https://example.com" })]
    "B" "https://example.com/" "https://example.com/" none none none
    { url := "https://example.com/" }
  have hdel := h.2.1 (by rfl) (by decide)
  exact ⟨h.1 (by decide) (by decide) (by rfl) (by rfl), hdel.1, hdel.2,
    h.2.2 (by decide) (by rfl)⟩

namespace Server

/-- The updated record built by the `PUT` handler on a URL migration: patch
fields override, missing fields carry over from the existing record. -/
def migrated (body : PutBody) (existing : McpServer) : McpServer :=
  { name := if strTrim body.name = "" then existing.name else strTrim body.name
    url := normalizeServer body.nextUrl
    transport := body.transport <|> existing.transport
    config := body.config <|> existing.config
    headers := body.headers <|> existing.headers }

end Server

/-- C7: a successful URL migration (`nextUrl` normalizes to a different,
unoccupied, http(s) key) returns the updated record with unsupplied patch
fields carried over; afterwards the old key is absent, the new key maps to
the updated record, and every other registry entry is unchanged. -/
theorem putServer_c7 (st : Server.Registry) (body : Server.PutBody)
    (existing : Server.McpServer)
    (hurl : Server.normalizeServer body.url ≠ "")
    (hex : lookupKey st (Server.normalizeServer body.url) = some existing)
    (hnext : Server.normalizeServer body.nextUrl ≠ "")
    (hdiff : Server.normalizeServer body.nextUrl ≠ Server.normalizeServer body.url)
    (hhttp : Server.isHttp (Server.normalizeServer body.nextUrl) = true)
    (hfree : lookupKey st (Server.normalizeServer body.nextUrl) = none) :
    Server.putServer st body =
      (.ok (Server.migrated body existing),
       jsSet (mapDelete st (Server.normalizeServer body.url))
         (Server.normalizeServer body.nextUrl) (Server.migrated body existing)) ∧
    lookupKey (Server.putServer st body).2 (Server.normalizeServer body.url) = none ∧
    lookupKey (Server.putServer st body).2 (Server.normalizeServer body.nextUrl) =
      some (Server.migrated body existing) ∧
    (∀ k, k ≠ Server.normalizeServer body.url → k ≠ Server.normalizeServer body.nextUrl →
      lookupKey (Server.putServer st body).2 k = lookupKey st k) := by
  have hmain : Server.putServer st body =
      (.ok (Server.migrated body existing),
       jsSet (mapDelete st (Server.normalizeServer body.url))
         (Server.normalizeServer body.nextUrl) (Server.migrated body existing)) := by
    have h1 : Server.putServer st body = Server.putServerBody st body existing := by
      simp only [Server.putServer]
      rw [if_neg hurl, hex]
    rw [h1]
    simp only [Server.putServerBody]
    rw [if_neg hnext]
    rw [if_neg (show ¬(Server.isHttp (Server.normalizeServer body.nextUrl) = false) by
      simp [hhttp])]
    rw [if_neg (show ¬(Server.normalizeServer body.nextUrl ≠ Server.normalizeServer body.url ∧
        (lookupKey st (Server.normalizeServer body.nextUrl)).isSome = true) by
      simp [hfree])]
    rw [if_pos hdiff]
    rfl
  refine ⟨hmain, ?_, ?_, ?_⟩
  · rw [hmain]
    rw [lookupKey_jsSet_ne _ _ _ _ (fun hx => hdiff hx.symm)]
    exact lookupKey_mapDelete_self st (Server.normalizeServer body.url)
  · rw [hmain]
    exact lookupKey_jsSet_self _ _ _
  · intro k hk hk'
    rw [hmain]
    rw [lookupKey_jsSet_ne _ _ _ _ hk']
    exact lookupKey_mapDelete_ne st _ _ hk

/-- C7 witness: `{url: "http://a", nextUrl: "http://c"}` against a registry
holding `http://a` and `http://b`: the migration succeeds, the old key is
gone, the new key holds the carried-over record, and `http://b` is
untouched. -/
theorem putServer_c7_witness :
    Server.putServer
        [("http://a", { name := "A", url := "http://a" }),
         ("http://b", { name := "B", url := "http://b" })]
        { url := "http://a", nextUrl := "http://c" } =
      (.ok (Server.migrated { url := "http://a", nextUrl := "http://c" }
              { name := "A", url := "http://a" }),
       jsSet (mapDelete
           [("http://a", { name := "A", url := "http://a" }),
            ("http://b", { name := "B", url := "http://b" })] "http://a")
         "http://c"
         (Server.migrated { url := "http://a", nextUrl := "http://c" }
           { name := "A", url := "http://a" })) ∧
    lookupKey (Server.putServer
        [("http://a", { name := "A", url := "http://a" }),
         ("http://b", { name := "B", url := "http://b" })]
        { url := "http://a", nextUrl := "http://c" }).2 "http://a" = none ∧
    lookupKey (Server.putServer
        [("http://a", { name := "A", url := "http://a" }),
         ("http://b", { name := "B", url := "http://b" })]
        { url := "http://a", nextUrl := "http://c" }).2 "http://c" =
      some (Server.migrated { url := "http://a", nextUrl := "http://c" }
              { name := "A", url := "http://a" }) ∧
    lookupKey (Server.putServer
        [("http://a", { name := "A", url := "http://a" }),
         ("http://b", { name := "B", url := "http://b" })]
        { url := "http://a", nextUrl := "http://c" }).2 "http://b" =
      lookupKey
        [("http://a", { name := "A", url := "http://a" }),
         ("http://b", { name := "B", url := "http://b" })] "http://b" := by
  have h := putServer_c7
    [("http://a", { name := "A", url := "http://a" }),
     ("http://b", { name := "B", url := "http://b" })]
    { url := "http://a", nextUrl := "http://c" }
    { name := "A", url := "http://a" }
    (by decide) (by rfl) (by decide) (by decide) (by rfl) (by rfl)
  exact ⟨h.1, h.2.1, h.2.2.1, h.2.2.2 "http://b" (by decide) (by decide)⟩

theorem addToolsGo_spec :
    ∀ (ts : List McpExport.McpTool) (acc result : List Toolbox.ToolboxItem),
      Toolbox.addToolsGo ts acc (acc.map (·.id)) = .ok result →
      (∃ tail, result = acc ++ tail ∧
        ∀ it ∈ tail, it.id ∉ acc.map (·.id) ∧
          ∃ t ∈ ts, McpExport.createToolKey t = .ok it.id ∧ it = Toolbox.mkItem t it.id) ∧
      (∀ t ∈ ts, ∀ k, McpExport.createToolKey t = .ok k → k ∈ result.map (·.id)) ∧
      ((acc.map (·.id)).Nodup → (result.map (·.id)).Nodup) := by
  intro ts
  induction ts with
  | nil =>
    intro acc result h
    simp only [Toolbox.addToolsGo, Except.ok.injEq] at h
    subst h
    exact ⟨⟨[], by simp, by simp⟩, by simp, fun hn => hn⟩
  | cons t rest ih =>
    intro acc result h
    cases hk : McpExport.createToolKey t with
    | error e => simp [Toolbox.addToolsGo, hk] at h
    | ok key =>
      by_cases hmem : key ∈ acc.map (·.id)
      · simp only [Toolbox.addToolsGo, hk, if_pos hmem] at h
        rcases ih acc result h with ⟨⟨tail, htail, hprops⟩, hcover, hnodup⟩
        refine ⟨⟨tail, htail, ?_⟩, ?_, hnodup⟩
        · intro it hit
          rcases hprops it hit with ⟨hnot, t', ht', hk', hmk⟩
          exact ⟨hnot, t', by simp [ht'], hk', hmk⟩
        · intro x hx k hkx
          rcases List.mem_cons.mp hx with rfl | hx'
          · have : k = key := by rw [hkx] at hk; exact Except.ok.inj hk
            subst this
            rcases htail with rfl
            rw [List.map_append]
            exact List.mem_append_left _ hmem
          · exact hcover x hx' k hkx
      · have hseen : (acc ++ [Toolbox.mkItem t key]).map (·.id) =
            acc.map (·.id) ++ [key] := by simp [Toolbox.mkItem]
        simp only [Toolbox.addToolsGo, hk, if_neg hmem] at h
        rw [← hseen] at h
        rcases ih (acc ++ [Toolbox.mkItem t key]) result h with
          ⟨⟨tail, htail, hprops⟩, hcover, hnodup⟩
        refine ⟨⟨Toolbox.mkItem t key :: tail, by simp [htail], ?_⟩, ?_, ?_⟩
        · intro it hit
          rcases List.mem_cons.mp hit with rfl | hit'
          · exact ⟨hmem, t, by simp, hk, rfl⟩
          · rcases hprops it hit' with ⟨hnot, t', ht', hk', hmk⟩
            refine ⟨fun hx => hnot ?_, t', by simp [ht'], hk', hmk⟩
            rw [hseen]
            exact List.mem_append_left _ hx
        · intro x hx k hkx
          rcases List.mem_cons.mp hx with rfl | hx'
          · have : k = key := by rw [hkx] at hk; exact Except.ok.inj hk
            subst this
            rcases htail with rfl
            rw [List.map_append, hseen]
            exact List.mem_append_left _ (List.mem_append_right _ (by simp))
          · exact hcover x hx' k hkx
        · intro hn
          refine hnodup ?_
          rw [hseen]
          refine hn.append (List.nodup_singleton key) ?_
          intro x hx hx'
          simp only [List.mem_singleton] at hx'
          exact hmem (hx' ▸ hx)

theorem addToolsGo_keys_defined :
    ∀ (ts : List McpExport.McpTool) (acc : List Toolbox.ToolboxItem) (seen : List String)
      (result : List Toolbox.ToolboxItem),
      Toolbox.addToolsGo ts acc seen = .ok result →
      ∀ t ∈ ts, ∃ k, McpExport.createToolKey t = .ok k := by
  intro ts
  induction ts with
  | nil => intro acc seen result _ t ht; simp at ht
  | cons t rest ih =>
    intro acc seen result h x hx
    cases hk : McpExport.createToolKey t with
    | error e => simp [Toolbox.addToolsGo, hk] at h
    | ok key =>
      rcases List.mem_cons.mp hx with rfl | hx'
      · exact ⟨key, hk⟩
      · simp only [Toolbox.addToolsGo, hk] at h
        by_cases hmem : key ∈ seen
        · rw [if_pos hmem] at h
          exact ih acc seen result h x hx'
        · rw [if_neg hmem] at h
          exact ih _ _ result h x hx'

theorem addToolsGo_skip :
    ∀ (ts : List McpExport.McpTool) (acc : List Toolbox.ToolboxItem) (seen : List String),
      (∀ t ∈ ts, ∀ k, McpExport.createToolKey t = .ok k → k ∈ seen) →
      (∀ t ∈ ts, ∃ k, McpExport.createToolKey t = .ok k) →
      Toolbox.addToolsGo ts acc seen = .ok acc := by
  intro ts
  induction ts with
  | nil => intro acc seen _ _; rfl
  | cons t rest ih =>
    intro acc seen hin hdef
    rcases hdef t (by simp) with ⟨k, hk⟩
    have hmem : k ∈ seen := hin t (by simp) k hk
    simp only [Toolbox.addToolsGo, hk, if_pos hmem]
    exact ih acc seen (fun x hx => hin x (by simp [hx])) (fun x hx => hdef x (by simp [hx]))

/-- C8: when `addTools` completes, the result is the current items followed
by one freshly-built `{id, name: display_name-or-name, source: server name,
status: "active"}` item per tool whose ToolKey was not already present (a
duplicate is skipped, not an error); every tool's key ends up among the
result's ids, id-uniqueness is preserved, and re-adding the same tools —
in one call or across repeated calls — is a no-op, so each id occurs exactly
once. -/
theorem addTools_c8 (current : List Toolbox.ToolboxItem) (tools : List McpExport.McpTool)
    (result : List Toolbox.ToolboxItem) (h : Toolbox.addTools current tools = .ok result) :
    (∃ tail, result = current ++ tail ∧
      ∀ it ∈ tail, it.id ∉ current.map (·.id) ∧
        ∃ t ∈ tools, McpExport.createToolKey t = .ok it.id ∧ it = Toolbox.mkItem t it.id) ∧
    (∀ t ∈ tools, ∀ k, McpExport.createToolKey t = .ok k → k ∈ result.map (·.id)) ∧
    ((current.map (·.id)).Nodup → (result.map (·.id)).Nodup) ∧
    Toolbox.addTools result tools = .ok result := by
  rcases addToolsGo_spec tools current result h with ⟨htail, hcover, hnodup⟩
  refine ⟨htail, hcover, hnodup, ?_⟩
  exact addToolsGo_skip tools result (result.map (·.id)) hcover
    (addToolsGo_keys_defined tools current
      (current.map (fun it : Toolbox.ToolboxItem => it.id)) result h)

/-- C8 witness: adding the same tool twice in one call over an empty toolbox
yields exactly one item, and re-running the call on the result is a no-op. -/
theorem addTools_c8_witness :
    Toolbox.addTools []
        [{ name := "read", display_name := "read", mcp_server_name := "S",
           mcp_server_url := "https://example.com/" },
         { name := "read", display_name := "read", mcp_server_name := "S",
           mcp_server_url := "https://example.com/" }] =
      .ok [{ id := "https://example.com::read", name := "read", source := "S",
             status := "active" }] ∧
    (([{ id := "https://example.com::read", name := "read", source := "S",
         status := "active" }] : List Toolbox.ToolboxItem).map (·.id)).Nodup ∧
    Toolbox.addTools
        [{ id := "https://example.com::read", name := "read", source := "S",
           status := "active" }]
        [{ name := "read", display_name := "read", mcp_server_name := "S",
           mcp_server_url := "https://example.com/" },
         { name := "read", display_name := "read", mcp_server_name := "S",
           mcp_server_url := "https://example.com/" }] =
      .ok [{ id := "https://example.com::read", name := "read", source := "S",
             status := "active" }] := by
  have h : Toolbox.addTools []
      [{ name := "read", display_name := "read", mcp_server_name := "S",
         mcp_server_url := "https://example.com/" },
       { name := "read", display_name := "read", mcp_server_name := "S",
         mcp_server_url := "https://example.com/" }] =
      .ok [{ id := "https://example.com::read", name := "read", source := "S",
             status := "active" }] := rfl
  have hm := addTools_c8 _ _ _ h
  exact ⟨h, hm.2.2.1 (by simp), hm.2.2.2⟩

theorem toMcpItem_ids (existing : List Adapter.ToolItem) :
    (existing.map Adapter.toMcpItem).map (fun it => it.id) =
      existing.map (fun it => it.id) := by
  simp [List.map_map, Adapter.toMcpItem, Function.comp]

theorem pairs_fst (l : List Adapter.McpToolItem) :
    (l.map (fun it => (it.id, it))).map Prod.fst = l.map (fun it => it.id) := by
  simp [List.map_map, Function.comp]

theorem pairs_snd (l : List Adapter.McpToolItem) :
    (l.map (fun it => (it.id, it))).map Prod.snd = l := by
  induction l with
  | nil => rfl
  | cons it rest ih =>
    simp only [List.map_cons]
    rw [ih]

theorem adapt_singleton (t : McpExport.McpTool) (opts : Option Adapter.McpToolAdapterOptions) :
    Adapter.adaptMcpToolsToTopology [t] opts = [Adapter.adaptMcpTool t] := by
  cases opts with
  | none => rfl
  | some o =>
    cases ho : o.maxToolsPerNode with
    | none => simp [Adapter.adaptMcpToolsToTopology, ho]
    | some m =>
      have hcond : ¬(m ≠ 0 ∧ ([t].map Adapter.adaptMcpTool).length > m) := by
        rintro ⟨hm, hlen⟩
        simp at hlen
        omega
      simp only [Adapter.adaptMcpToolsToTopology, Option.getD_some, ho, if_neg hcond]
      rfl

theorem foldl_jsSet_pairs (l : List Adapter.McpToolItem) :
    ∀ acc : List (String × Adapter.McpToolItem),
      (∀ k ∈ l.map (fun it => it.id), k ∉ acc.map Prod.fst) →
      (l.map (fun it => it.id)).Nodup →
      l.foldl (fun m it => jsSet m it.id it) acc = acc ++ l.map (fun it => (it.id, it)) := by
  induction l with
  | nil => intro acc _ _; simp
  | cons it rest ih =>
    intro acc hdisj hnd
    rw [List.map_cons] at hnd
    have hnd' := List.nodup_cons.mp hnd
    rw [List.foldl_cons, jsSet_append_of_not_mem acc it.id it (hdisj it.id (by simp))]
    rw [ih (acc ++ [(it.id, it)]) ?_ hnd'.2]
    · simp
    · intro k hk
      rw [List.map_append]
      intro hmem
      rcases List.mem_append.mp hmem with hm | hm
      · exact hdisj k (by simp [hk]) hm
      · simp only [List.map_cons, List.map_nil, List.mem_singleton] at hm
        rw [hm] at hk
        exact hnd'.1 hk

theorem map_ite_id (l : List Adapter.McpToolItem) (k : String) (v : Adapter.McpToolItem)
    (h : k ∉ l.map (fun it => it.id)) :
    l.map (fun it => if it.id = k then v else it) = l := by
  induction l with
  | nil => rfl
  | cons it rest ih =>
    simp only [List.map_cons, List.mem_cons, not_or] at h
    have hit : ¬(it.id = k) := fun hx => h.1 hx.symm
    simp [hit, ih h.2]

theorem map_snd_jsSet_pairs (l : List Adapter.McpToolItem) (k : String)
    (v : Adapter.McpToolItem) (hnd : (l.map (fun it => it.id)).Nodup) :
    (jsSet (l.map fun it => (it.id, it)) k v).map Prod.snd =
      if k ∈ l.map (fun it => it.id) then l.map (fun it => if it.id = k then v else it)
      else l ++ [v] := by
  induction l with
  | nil => simp [jsSet]
  | cons it rest ih =>
    rw [List.map_cons] at hnd
    have hnd' := List.nodup_cons.mp hnd
    by_cases hit : it.id = k
    · have hrest : k ∉ rest.map (fun it => it.id) := hit ▸ hnd'.1
      simp only [List.map_cons, jsSet, if_pos hit]
      rw [if_pos (by simp [hit.symm])]
      rw [pairs_snd, map_ite_id rest k v hrest]
    · have hne : ¬(k = it.id) := fun hx => hit hx.symm
      simp only [List.map_cons, jsSet, if_neg hit]
      rw [ih hnd'.2]
      by_cases hk : k ∈ rest.map (fun it => it.id)
      · rw [if_pos hk, if_pos (by simp [hk])]
      · rw [if_neg hk, if_neg (by simp [hne, hk])]
        rfl

/-- C10: `mergeWithMcpTools` is last-write-wins at the position of first
insertion: an incoming MCP tool whose adapted id matches an existing item
replaces that item in place (the existing items having their MCP server
fields cleared by the conversion); for id-disjoint inputs the result is
exactly the converted existing items followed by the adapted MCP tools, each
id appearing once. -/
theorem mergeWithMcpTools_c10 :
    (∀ (existing : List Adapter.ToolItem) (t : McpExport.McpTool)
        (opts : Option Adapter.McpToolAdapterOptions),
      (existing.map (fun it => it.id)).Nodup →
      (Adapter.adaptMcpTool t).id ∈ existing.map (fun it => it.id) →
      Adapter.mergeWithMcpTools existing [t] opts =
        (existing.map Adapter.toMcpItem).map
          (fun it => if it.id = (Adapter.adaptMcpTool t).id then Adapter.adaptMcpTool t
            else it)) ∧
    (∀ (existing : List Adapter.ToolItem) (mcp : List McpExport.McpTool)
        (opts : Option Adapter.McpToolAdapterOptions),
      (existing.map (fun it => it.id)).Nodup →
      ((Adapter.adaptMcpToolsToTopology mcp opts).map (fun it => it.id)).Nodup →
      (∀ k ∈ (Adapter.adaptMcpToolsToTopology mcp opts).map (fun it => it.id),
        k ∉ existing.map (fun it => it.id)) →
      Adapter.mergeWithMcpTools existing mcp opts =
        existing.map Adapter.toMcpItem ++ Adapter.adaptMcpToolsToTopology mcp opts) := by
  constructor
  · intro existing t opts hnd hmem
    have hnd' : ((existing.map Adapter.toMcpItem).map (fun it => it.id)).Nodup := by
      rw [toMcpItem_ids]; exact hnd
    simp only [Adapter.mergeWithMcpTools, adapt_singleton]
    rw [foldl_jsSet_pairs (existing.map Adapter.toMcpItem) [] (by simp) hnd',
      List.nil_append, List.foldl_cons, List.foldl_nil]
    rw [map_snd_jsSet_pairs _ _ _ hnd']
    rw [if_pos (by rw [toMcpItem_ids]; exact hmem)]
  · intro existing mcp opts hnd1 hnd2 hdisj
    have hnd' : ((existing.map Adapter.toMcpItem).map (fun it => it.id)).Nodup := by
      rw [toMcpItem_ids]; exact hnd1
    simp only [Adapter.mergeWithMcpTools]
    rw [foldl_jsSet_pairs (existing.map Adapter.toMcpItem) [] (by simp) hnd',
      List.nil_append]
    rw [foldl_jsSet_pairs (Adapter.adaptMcpToolsToTopology mcp opts) _ ?_ hnd2]
    · rw [List.map_append, pairs_snd, pairs_snd]
    · intro k hk
      rw [pairs_fst, toMcpItem_ids]
      exact hdisj k hk

/-- C10 witness: a one-item toolbox whose id matches the incoming tool's id
is replaced in place, and an id-disjoint merge appends. -/
theorem mergeWithMcpTools_c10_witness :
    Adapter.mergeWithMcpTools [{ id := "u::n", name := "old" }]
        [{ name := "n", display_name := "n", mcp_server_name := "S",
           mcp_server_url := "u" }] none =
      ([({ id := "u::n", name := "old" } : Adapter.ToolItem)].map Adapter.toMcpItem).map
        (fun it => if it.id = (Adapter.adaptMcpTool
            { name := "n", display_name := "n", mcp_server_name := "S",
              mcp_server_url := "u" }).id then
          Adapter.adaptMcpTool
            { name := "n", display_name := "n", mcp_server_name := "S",
              mcp_server_url := "u" }
          else it) ∧
    Adapter.mergeWithMcpTools [{ id := "u::n", name := "old" }]
        [{ name := "m", display_name := "m", mcp_server_name := "S",
           mcp_server_url := "v" }] none =
      [({ id := "u::n", name := "old" } : Adapter.ToolItem)].map Adapter.toMcpItem ++
        Adapter.adaptMcpToolsToTopology
          [{ name := "m", display_name := "m", mcp_server_name := "S",
             mcp_server_url := "v" }] none :=
  ⟨mergeWithMcpTools_c10.1 [{ id := "u::n", name := "old" }]
      { name := "n", display_name := "n", mcp_server_name := "S", mcp_server_url := "u" }
      none (by decide) (by decide),
   mergeWithMcpTools_c10.2 [{ id := "u::n", name := "old" }]
      [{ name := "m", display_name := "m", mcp_server_name := "S", mcp_server_url := "v" }]
      none (by decide) (by decide) (by decide)⟩

example : McpExport.normalizeUrl "https://example.com/" = "https://example.com" := by decide

example :
    McpExport.createToolKey
      { name := "read", display_name := "", mcp_server_name := "",
        mcp_server_url := "https://example.com/" } = .ok "https://example.com::read" := by
  rfl

example :
    McpExport.createConfig
      [{ name := "read_url_content", display_name := "read_url_content",
         mcp_server_name := "Agent Builder", mcp_server_url := "https://example.com/" }] =
    .ok { tools := [{ name := "read_url_content", display_name := "read_url_content",
                      mcp_server_name := "Agent Builder", mcp_server_url := "https://example.com" }],
          interrupt_config := [("https://example.com::read_url_content::Agent Builder", true)] } := by
  rfl
